import Mathlib

/-!
Verification of the Window Batch Orchestrator specification against the two
implementations in the repository: the primary implementation
(blitz_talker_control_gtk.py) and the candidate rewrite
(blitz_talker_control_gtk_candidate_grok4.py).

The embedding is shallow: the configuration files are lists of text lines,
window handles are opaque identifiers, and the stateful loops (firing,
discovery) are explicit state-passing functions.  External effects that the
loops observe (the persisted FIRE_MODE flag, the window list re-read each
round, visible-window polls) are supplied as oracle functions of the read
index or poll index, exactly at the points where the source performs the
corresponding read.  Python integer arithmetic on non-negative quantities is
modeled with Nat; the source expression int(a * b / 100) is modeled as exact
integer floor division, which agrees with the float computation throughout
the modeled ranges.  Python str.strip / str.lower are modeled over the ASCII
character set used by the configuration grammar.
-/

/-! ### Character-level utilities (Python str semantics on ASCII) -/

/-- The double-quote character, written via its code point. -/
def quoteChar : Char := Char.ofNat 34

/-- The single-quote (apostrophe) character, written via its code point. -/
def apoChar : Char := Char.ofNat 39

/-- Python str.strip default whitespace (ASCII part): space, tab, newline,
carriage return, vertical tab, form feed. -/
def isPySpace (c : Char) : Bool :=
  c = ' ' || c = '\t' || c = '\n' || c = '\r' || c = Char.ofNat 11 || c = Char.ofNat 12

/-- ASCII lower-casing of a single character, as Python str.lower does on
the configuration strings in scope: the letters A through Z (code points 65
to 90) move down-case by adding 32; everything else is unchanged. -/
def lowerChar (c : Char) : Char :=
  if 65 ≤ c.toNat ∧ c.toNat ≤ 90 then Char.ofNat (c.toNat + 32) else c

/-- Right-strip of whitespace on a character list (via reverse). -/
def rdropWs (cs : List Char) : List Char :=
  (cs.reverse.dropWhile isPySpace).reverse

/-- Python str.strip on a character list: drop whitespace from both ends. -/
def stripL (cs : List Char) : List Char :=
  rdropWs (cs.dropWhile isPySpace)

/-- Strip every leading and trailing occurrence of one character, as Python
str.strip with a one-character argument does. -/
def stripCharL (q : Char) (cs : List Char) : List Char :=
  ((cs.dropWhile (fun c => c = q)).reverse.dropWhile (fun c => c = q)).reverse

/-- Boolean list-prefix test. -/
def isPrefixL : List Char → List Char → Bool
  | [], _ => true
  | _ :: _, [] => false
  | a :: as, b :: bs => a = b && isPrefixL as bs

/-- Boolean substring test (Python `a in b` on strings). -/
def isSubstrL (n : List Char) : List Char → Bool
  | [] => n.isEmpty
  | c :: hs => isPrefixL n (c :: hs) || isSubstrL n hs

/-- Everything after the first '=' of the list; Python s.split with
separator '=' and maxsplit 1, taking the second component. -/
def afterEqL : List Char → List Char
  | [] => []
  | c :: cs => if c = '=' then cs else afterEqL cs

/-- Everything before the first '#' of the list; Python s.split with
separator '#' and maxsplit 1, taking the first component. -/
def beforeHashL : List Char → List Char
  | [] => []
  | c :: cs => if c = '#' then [] else c :: beforeHashL cs

/-- Split a character list on commas; Python s.split with separator ','. -/
def splitComma : List Char → List (List Char)
  | [] => [[]]
  | c :: cs =>
    if c = ',' then [] :: splitComma cs
    else
      match splitComma cs with
      | [] => [[c]]
      | g :: gs => (c :: g) :: gs

/-! ### String wrappers -/

/-- Python s.strip() on a String. -/
def pyStrip (s : String) : String := ⟨stripL s.data⟩

/-- Python s.lower() on a String (ASCII). -/
def strLower (s : String) : String := ⟨s.data.map lowerChar⟩

/-- Python s.startswith(pre). -/
def strStartsWith (s pre : String) : Bool := isPrefixL pre.data s.data

/-- Everything after the first '=' of a String. -/
def afterFirstEq (s : String) : String := ⟨afterEqL s.data⟩

/-- Python v[1:-1] applied when v is wrapped in matching double or single
quotes (the unquoting step of the env-file readers). -/
def quoteStripL (cs : List Char) : List Char :=
  if (cs.head? = some quoteChar ∧ cs.getLast? = some quoteChar)
      ∨ (cs.head? = some apoChar ∧ cs.getLast? = some apoChar) then
    (cs.drop 1).dropLast
  else cs

/-- Matching-quote removal on a String. -/
def stripQuotes (s : String) : String := ⟨quoteStripL s.data⟩

/-- The empty string, named to keep literals out of application positions. -/
def emptyS : String := ""

/-- The string consisting of a single '=' character. -/
def eqS : String := "="

/-- The two characters '="' that update_env places between key and value. -/
def eqQuoteS : String := "=\""

/-- The string consisting of a single double-quote character. -/
def quoteS : String := "\""

/-! ### Primary implementation: layered configuration (blitz_talker_control_gtk.py)

The three tier files .system_env, .imagine_env, .user_env are modeled as
lists of lines (a line is atomic: values containing newline characters fall
outside this file model).  read_merged_key walks the three files in order
System, Imagine (Batch), User and keeps the last value found.
-/

/-- Does this line define the key, i.e. does its stripped form start with
the characters of the key followed by an equals sign (source line 52). -/
def matchLine (key line : String) : Bool :=
  strStartsWith (pyStrip line) (key ++ eqS)

/-- The value a matching line carries: text after the first '=', stripped,
then unquoted (source lines 53-55). -/
def lineValue (line : String) : String :=
  stripQuotes (pyStrip (afterFirstEq (pyStrip line)))

/-- One step of the primary read_merged_key scan: a matching line overwrites
the value seen so far (last occurrence wins). -/
def procLine (key : String) (acc : Option String) (line : String) : Option String :=
  if matchLine key line then some (lineValue line) else acc

/-- Scan one tier file, threading the value accumulated so far. -/
def readKeyFold (key : String) (lines : List String) (acc : Option String) : Option String :=
  lines.foldl (procLine key) acc

/-- The value a single tier defines for a key (its last definition), if any. -/
def tierValue (key : String) (lines : List String) : Option String :=
  readKeyFold key lines none

/-- Primary read_merged_key (source lines 39-57): System, then Imagine,
then User; last definition across the three files wins; none if absent. -/
def read_merged_key (sys imagine user : List String) (key : String) : Option String :=
  readKeyFold key user (readKeyFold key imagine (readKeyFold key sys none))

/-- Primary update_env (source lines 164-180): replace every line defining
the key with a fresh quoted definition, appending one if none existed. -/
def update_env (lines : List String) (key value : String) : List String :=
  let newLine := key ++ eqQuoteS ++ value ++ quoteS
  if lines.any (fun l => matchLine key l) then
    lines.map (fun l => if matchLine key l then newLine else l)
  else lines ++ [newLine]

/-- Removal of every definition of a key from a tier file, as save_all does
when clearing a user override (source lines 556-563). -/
def removeKeyLines (lines : List String) (key : String) : List String :=
  lines.filter (fun l => !(matchLine key l))

/-- The BLANK_PROMPT configuration key. -/
def keyBLANK : String := "BLANK_PROMPT"

/-- The FIRE_MODE configuration key (the persisted firing flag). -/
def keyFIRE : String := "FIRE_MODE"

/-- The value the firing flag takes when cleared. -/
def valN : String := "N"

/-- The error text get_blank_prompt_mode raises when the key is absent. -/
def blankErrMsg : String := "Configuration error: BLANK_PROMPT not set in any env file."

/-- Primary get_blank_prompt_mode (source lines 221-229): merged read of
BLANK_PROMPT; a RuntimeError (modeled as Except.error) if it is absent from
every tier, otherwise 1 exactly when the stripped value is the digit one. -/
def get_blank_prompt_mode (sys imagine user : List String) : Except String Nat :=
  match read_merged_key sys imagine user keyBLANK with
  | none => Except.error blankErrMsg
  | some v => Except.ok (if pyStrip v = ("1" : String) then 1 else 0)

/-! ### Candidate implementation: configuration with a startup cache

The candidate (blitz_talker_control_gtk_candidate_grok4.py) loads the user
tier once at import time into user_cache (line 239) and never re-reads the
user file: both read_merged_key (lines 152-162) and get_merged_multiline
(lines 121-131) consult the cache first, then the Imagine and System files.
The cache and the parsed env dictionaries are modeled as association lists;
the imagine/system files read by Cand.read_key are modeled as line lists.
-/

/-- Python dict lookup on the modeled cache. -/
def Cand.lookupCache (cache : List (String × String)) (k : String) : Option String :=
  match cache with
  | [] => none
  | (a, b) :: rest => if a = k then some b else Cand.lookupCache rest k

/-- Candidate read_key (source lines 133-150): first matching line wins;
the value is taken before any '#', stripped, then stripped of every leading
and trailing quote character. -/
def Cand.lineValue (line : String) : String :=
  ⟨stripCharL apoChar (stripCharL quoteChar (stripL (beforeHashL (afterEqL line.data))))⟩

/-- Candidate read_key scan over one file. -/
def Cand.read_key (lines : List String) (key : String) : Option String :=
  match lines with
  | [] => none
  | l :: ls => if matchLine key l then some (Cand.lineValue l) else Cand.read_key ls key

/-- Candidate read_merged_key (source lines 152-162): the startup user cache
wins; otherwise the Imagine file, then the System file.  The user file on
disk is never consulted. -/
def Cand.read_merged_key (cache : List (String × String)) (imagineL sysL : List String)
    (key : String) : Option String :=
  match Cand.lookupCache cache key with
  | some v => some v
  | none =>
    match Cand.read_key imagineL key with
    | some v => some v
    | none => Cand.read_key sysL key

/-- Candidate update_env (source lines 164-183): drop every line defining
the key, then append a fresh quoted definition. -/
def Cand.update_env (lines : List String) (key value : String) : List String :=
  (lines.filter (fun l => !(matchLine key l))) ++ [key ++ eqQuoteS ++ value ++ quoteS]

/-- Candidate get_merged_multiline (source lines 121-131): cache, then the
parsed Imagine and System dictionaries; the empty string when absent.  The
multiline parser load_env_multiline is abstracted into the supplied parsed
dictionaries; the fallback behavior under scrutiny is the final return. -/
def Cand.get_merged_multiline (cache imagineD sysD : List (String × String))
    (k : String) : String :=
  match Cand.lookupCache cache k with
  | some v => v
  | none =>
    match Cand.lookupCache imagineD k with
    | some v => v
    | none =>
      match Cand.lookupCache sysD k with
      | some v => v
      | none => emptyS

/-! ### Candidate implementation: clipboard effect of one shot

Candidate daemon_thread_func, lines 1818-1838: before injecting, the shot
reads the clipboard through get_clipboard (which strips the xclip output,
line 273), and the statement at line 1838 writes that reading back after
the injection sequence.  Every injection statement, however, calls
gentle_target_op as a bare name, which the module never defines (it exists
only as a method, line 1630), so each such statement raises NameError the
moment it is reached (clipboard_set and get_clipboard themselves swallow
their own errors, lines 271-281).  The shot is therefore the statement
sequence below under an exception semantics in which every gentle_target_op
step raises.
-/

/-- One statement of the injection sequence that touches or can abort the
clipboard state: a clipboard_set call, or a gentle_target_op call (a bare
reference to an undefined name, hence a NameError when reached). -/
inductive ClipOp
  | setClip (s : String)
  | gentleKey (s : String)

/-- Run the statement sequence from a clipboard state: clipboard_set
replaces the state; a gentle_target_op statement raises NameError, which
nothing in daemon_thread_func catches, so the run aborts there —
Except.error carries the clipboard content left behind at the crash. -/
def runShotOps : String → List ClipOp → Except String String
  | c, [] => Except.ok c
  | _, ClipOp.setClip s :: rest => runShotOps s rest
  | c, ClipOp.gentleKey _ :: _ => Except.error c

/-- Candidate get_clipboard (source line 273): the xclip output, stripped. -/
def Cand.get_clipboard (c : String) : String := pyStrip c

/-- The statement sequence of one shot (source lines 1820-1838): the erase
sentinel branch, the silent sentinel branch, and the ordinary branch in its
fire-chain and step-by-step variants; the common write-back of the earlier
clipboard reading (line 1838) follows whichever branch ran. -/
def Cand.shotOps (origClip prompt eraseChar silentChar : String) (fireChain : Bool) :
    List ClipOp :=
  if pyStrip prompt = eraseChar then
    [ClipOp.gentleKey ("Control+a Delete"), ClipOp.setClip emptyS,
     ClipOp.gentleKey ("Return"), ClipOp.setClip origClip]
  else if pyStrip prompt = silentChar then
    [ClipOp.setClip emptyS, ClipOp.gentleKey ("Return"), ClipOp.setClip origClip]
  else if fireChain then
    [ClipOp.setClip prompt, ClipOp.gentleKey ("Control+a Delete Control+v Return"),
     ClipOp.setClip origClip]
  else
    [ClipOp.setClip prompt, ClipOp.gentleKey ("Control+a Delete"),
     ClipOp.gentleKey ("Control+v"), ClipOp.gentleKey ("Return"),
     ClipOp.setClip origClip]

/-- The outcome of one shot against a window, starting from clipboard
content c0: Except.ok would be the content of a completed shot, Except.error
the content left when the shot aborts with NameError. -/
def Cand.clipAfterShot (c0 prompt eraseChar silentChar : String) (fireChain : Bool) :
    Except String String :=
  runShotOps c0 (Cand.shotOps (Cand.get_clipboard c0) prompt eraseChar silentChar fireChain)

/-! ### Candidate implementation: per-target prompt resolution

Candidate get_active_prompt_for_url (lines 1412-1424): when the per-target
.gxi file exists, its parsed prompt lists are scanned in stage order
1, 2, 3, U for the first prompt carrying the leading at-sign sentinel;
otherwise the merged DEFAULT_PROMPT is used when non-empty, otherwise the
resolution yields nothing (the firing loop then skips the window, line
1814-1816).  The gxi parse result is supplied as the four stage lists.
-/

/-- The at-sign sentinel marking the active prompt. -/
def atS : String := "@"

/-- Python p.lstrip with argument at-sign: drop every leading at-sign. -/
def dropAts (p : String) : String := ⟨p.data.dropWhile (fun c => c = '@')⟩

/-- The first prompt of a stage list that starts with the sentinel,
stripped of its leading at-signs and surrounding whitespace. -/
def findAtPrompt : List String → Option String
  | [] => none
  | p :: rest =>
    if strStartsWith p atS then some (pyStrip (dropAts p)) else findAtPrompt rest

/-- Scan the four stages in the order 1, 2, 3, U (source line 1416). -/
def Cand.gxiActive (s1 s2 s3 su : List String) : Option String :=
  match findAtPrompt s1 with
  | some p => some p
  | none =>
    match findAtPrompt s2 with
    | some p => some p
    | none =>
      match findAtPrompt s3 with
      | some p => some p
      | none => findAtPrompt su

/-- The DEFAULT_PROMPT fallback (source lines 1421-1424): the merged value,
stripped; nothing when that is empty. -/
def defaultOpt (d : String) : Option String :=
  if pyStrip d = emptyS then none else some (pyStrip d)

/-- Candidate get_active_prompt_for_url over the parse result of the
per-target gxi file (none when the file does not exist). -/
def Cand.get_active_prompt_for_url
    (gxi : Option (List String × List String × List String × List String))
    (defaultPrompt : String) : Option String :=
  match gxi with
  | some (s1, s2, s3, su) =>
    match Cand.gxiActive s1 s2 s3 su with
    | some p => some p
    | none => defaultOpt defaultPrompt
  | none => defaultOpt defaultPrompt

/-- The prompt precedence stated by the specification: a live in-memory
current-prompt text first, then the per-target persisted active prompt,
then the global default.  This definition follows the claim words and is
compared against the implementation. -/
def specPromptResolution (live activeP dflt : Option String) : Option String :=
  match live with
  | some l => some l
  | none =>
    match activeP with
    | some a => some a
    | none => dflt

/-! ### Grid planner (primary _grid_ids lines 815-860; candidate 2200-2239)

Both implementations compute the same plan arithmetic: a fixed margin of 20
pixels on all sides, a minimum horizontal advance honoring the overlap
budget, a preferred two-row layout falling back to the width-constrained
column maximum, and per-axis steps that spread or compress the block.
-/

/-- The grid plan: column and row counts, per-axis steps, block origin. -/
structure GridPlan where
  cols : Nat
  rows : Nat
  stepX : Nat
  stepY : Nat
  xStart : Nat
  yStart : Nat
deriving DecidableEq

/-- The minimum advance between adjacent origins honoring the overlap
budget: max 1 (cell * (100 - overlap) / 100). -/
def effStep (cell overlap : Nat) : Nat := max 1 (cell * (100 - overlap) / 100)

/-- The widest column count that fits the available width at the minimum
advance (1 when even a single cell does not fit). -/
def maxColsByWidth (availW cellW es : Nat) : Nat :=
  if cellW ≤ availW then 1 + (availW - cellW) / es else 1

/-- Column count: the two-row preference ceil(n / 2) when it fits, else the
width-constrained maximum. -/
def gridCols (n mc : Nat) : Nat :=
  if (n + 1) / 2 ≤ mc then (n + 1) / 2 else mc

/-- Row count: two in the preferred layout, else ceil(n / cols). -/
def gridRows (n mc : Nat) : Nat :=
  if (n + 1) / 2 ≤ mc then 2 else (n + gridCols n mc - 1) / gridCols n mc

/-- The per-axis step: zero for a single row or column; otherwise spread the
slack evenly but never below the minimum advance, or, when even the minimum
advance overflows, compress to the tightest positive step that fits. -/
def stepFor (cell avail cnt es : Nat) : Nat :=
  if cnt = 1 then 0
  else if cell + (cnt - 1) * es ≤ avail then
    max es ((avail - cell) / (cnt - 1))
  else max 1 ((avail - cell) / (cnt - 1))

/-- The whole plan for n windows of the given cell size on the given screen
with the given maximum overlap percentage. -/
def gridPlan (n cellW cellH sw sh overlap : Nat) : GridPlan :=
  let availW := sw - 40
  let availH := sh - 40
  let es := effStep cellW overlap
  let mc := maxColsByWidth availW cellW es
  let cols := gridCols n mc
  let rows := gridRows n mc
  let sx := stepFor cellW availW cols es
  let ves := effStep cellH overlap
  let sy := stepFor cellH availH rows ves
  { cols := cols, rows := rows, stepX := sx, stepY := sy,
    xStart := 20 + (availW - (cellW + (cols - 1) * sx)) / 2,
    yStart := 20 + (availH - (cellH + (rows - 1) * sy)) / 2 }

/-- Window i goes to row i / cols, column i % cols of the centered block. -/
def gridPos (p : GridPlan) (i : Nat) : Nat × Nat :=
  (p.xStart + (i % p.cols) * p.stepX, p.yStart + (i / p.cols) * p.stepY)

/-! ### Discovery loop (primary grid_windows lines 733-798)

One poll returns the visible windows as pairs of window id and title.  The
loop keeps the previous total visible count (initially the impossible -1,
modeled as none), a stagnation counter, and the most recent non-empty
matched set; it stops when enough windows match, when the visible count has
been unchanged for stagnant_limit = 3 consecutive polls, or after
max_tries = 30 polls.
-/

/-- The matched set of one poll (source lines 762-774): the ids of the
windows whose stripped, lowered title contains some pattern, in poll
order. -/
def matchedLoop (pats : List String) : List (String × String) → List String
  | [] => []
  | wt :: rest =>
    if pats.any (fun p => isSubstrL p.data (strLower (pyStrip wt.2)).data) then
      wt.1 :: matchedLoop pats rest
    else matchedLoop pats rest

/-- The matched set as the specification words it: exactly those visible
windows whose title contains, as a case-insensitive substring, at least one
pattern.  This definition follows the claim words and is compared against
the implementation. -/
def claimMatched (pats : List String) (poll : List (String × String)) : List String :=
  (poll.filter (fun wt => pats.any (fun p => isSubstrL p.data (strLower wt.2).data))).map
    Prod.fst

/-- The WINDOW_PATTERNS parse (source line 736): split on commas, keep the
items with non-blank content, strip whitespace then quote characters, and
lower-case. -/
def parsePatterns (s : String) : List String :=
  ((splitComma s.data).filter (fun p => !(stripL p).isEmpty)).map
    (fun p => ⟨(stripCharL apoChar (stripCharL quoteChar (stripL p))).map lowerChar⟩)

/-- Candidate matched set (source lines 2131-2138): a window matches only
when its stripped, lowered title is equal to one of the patterns. -/
def Cand.matchedPoll (pats : List String) : List (String × String) → List String
  | [] => []
  | wt :: rest =>
    if pats.contains (strLower (pyStrip wt.2)) then wt.1 :: Cand.matchedPoll pats rest
    else Cand.matchedPoll pats rest

/-- Why the discovery loop stopped. -/
inductive DiscReason
  | enough
  | stagnant
  | timeout
deriving DecidableEq

/-- The observable outcome of the discovery loop: the number of polls it
performed, the set it passed to the gridder (none when it gave up without a
match), and the exit reason. -/
structure DiscResult where
  attemptsUsed : Nat
  gridded : Option (List String)
  reason : DiscReason
deriving DecidableEq

/-- none for an empty list, the list otherwise (the loop grids last_matched
only when non-empty). -/
def optOfList (l : List String) : Option (List String) := if l = [] then none else some l

/-- The discovery loop body with explicit state: remaining polls, current
attempt number, previous total count, stagnation counter, most recent
non-empty matched set. -/
def discLoop (polls : Nat → List (String × String)) (pats : List String) (expected : Nat) :
    Nat → Nat → Option Nat → Nat → List String → DiscResult
  | 0, a, _, _, lm => ⟨a - 1, optOfList lm, DiscReason.timeout⟩
  | fuel + 1, a, lt, stag, lm =>
    let ids := polls a
    let total := ids.length
    let stag2 := if lt = some total then stag + 1 else 0
    let m := matchedLoop pats ids
    let lm2 := if m.isEmpty then lm else m
    if expected ≤ m.length then ⟨a, some m, DiscReason.enough⟩
    else if 3 ≤ stag2 then ⟨a, optOfList lm2, DiscReason.stagnant⟩
    else discLoop polls pats expected fuel (a + 1) (some total) stag2 lm2

/-- The discovery loop as grid_windows runs it: up to 30 polls starting at
attempt 1 with no previous count, zero stagnation, no match retained. -/
def grid_windows (polls : Nat → List (String × String)) (pats : List String)
    (expected : Nat) : DiscResult :=
  discLoop polls pats expected 30 1 none 0 []

/-- The total visible count of poll t. -/
def countsOf (polls : Nat → List (String × String)) (t : Nat) : Nat := (polls t).length

/-- The stagnation counter in closed form: the length of the maximal run of
unchanged-total polls ending at poll t (the first poll never counts, since
the previous total starts at the impossible -1). -/
def runLen (c : Nat → Nat) : Nat → Nat
  | 0 => 0
  | 1 => 0
  | t + 2 => if c (t + 2) = c (t + 1) then runLen c (t + 1) + 1 else 0

/-- The most recent non-empty matched set among polls 1..t. -/
def lastNonemptyM (polls : Nat → List (String × String)) (pats : List String) :
    Nat → List String
  | 0 => []
  | t + 1 =>
    let m := matchedLoop pats (polls (t + 1))
    if m.isEmpty then lastNonemptyM polls pats t else m

/-- The previous-total state entering attempt a: none before attempt 2. -/
def ltOf (polls : Nat → List (String × String)) : Nat → Option Nat
  | 0 => none
  | 1 => none
  | t + 2 => some (countsOf polls (t + 1))

/-- Poll t is a stagnation poll: the total visible count was unchanged over
the last stagnant_limit = 3 polls (hence over four consecutive polls, the
first of which must exist). -/
def stagCondAt (c : Nat → Nat) (t : Nat) : Prop :=
  4 ≤ t ∧ c t = c (t - 1) ∧ c (t - 1) = c (t - 2) ∧ c (t - 2) = c (t - 3)

instance (c : Nat → Nat) (t : Nat) : Decidable (stagCondAt c t) := by
  unfold stagCondAt
  infer_instance

/-! ### Firing loop (primary daemon_thread_func lines 908-1184)

The loop runs rounds 1..FIRE_COUNT.  Every read of the persisted FIRE_MODE
flag is an oracle call indexed by a running read counter t: the flag is read
at the top of each round, after every shot of a burst, and after every
window.  The per-round window list and resolved prompt list are oracle
functions of the round number (the source re-reads both files each round);
a round whose window list or prompt list is empty is skipped with continue.
A window marked failing raises on its first operation; the surrounding
try/except catches and the loop proceeds, which the model encodes by
charging no shots and no flag reads for that window.
-/

/-- The environment one firing run observes. -/
structure DaemonEnv where
  fireCount : Nat
  burst : Nat
  modeY : Nat → Bool
  failing : Nat → Bool
  windowsOfRound : Nat → List Nat
  promptsOfRound : Nat → List String
  imagineEnv : List String

/-- The burst loop over one window (source lines 1037-1166): every
iteration performs a shot, increments the total, then reads the flag and
breaks out of the burst when it reads N.  Returns the read counter and shot
total afterwards. -/
def burstRun (env : DaemonEnv) : Nat → Nat → Nat → Nat × Nat
  | 0, t, s => (t, s)
  | b + 1, t, s =>
    if env.modeY t then burstRun env b (t + 1) (s + 1) else (t + 1, s + 1)

/-- State threaded through the per-round window loop. -/
structure WSt where
  t : Nat
  shots : Nat
  broke : Bool
  processed : List (Nat × Nat)
deriving DecidableEq

/-- One window of one round (source lines 957-1179): the try body performs
the burst unless the window fails at its first operation (caught by the
except clause); afterwards the flag is read and the window loop breaks on
N.  The pair (round, window) is recorded as processed when the loop reaches
the window. -/
def windowStep (env : DaemonEnv) (rn : Nat) (st : WSt) (w : Nat) : WSt :=
  if st.broke then st
  else
    let pr := st.processed ++ [(rn, w)]
    let ts := if env.failing w then (st.t, st.shots) else burstRun env env.burst st.t st.shots
    { t := ts.1 + 1, shots := ts.2, broke := !(env.modeY ts.1), processed := pr }

/-- State threaded through the round loop. -/
structure RSt where
  t : Nat
  shots : Nat
  broke : Bool
  entered : List Nat
  processed : List (Nat × Nat)
deriving DecidableEq

/-- One round (source lines 934-1179): read the flag and break the round
loop on N; otherwise the round is entered; a round with no windows or no
prompts is skipped; otherwise the window loop runs, and its internal break
does not break the round loop. -/
def roundStep (env : DaemonEnv) (st : RSt) (rn : Nat) : RSt :=
  if st.broke then st
  else if env.modeY st.t then
    let ent := st.entered ++ [rn]
    let ws := env.windowsOfRound rn
    if ws.isEmpty || (env.promptsOfRound rn).isEmpty then
      { st with t := st.t + 1, entered := ent }
    else
      let wst := ws.foldl (windowStep env rn) ⟨st.t + 1, st.shots, false, st.processed⟩
      { t := wst.t, shots := wst.shots, broke := false, entered := ent,
        processed := wst.processed }
  else { st with t := st.t + 1, broke := true }

/-- The round loop: remaining rounds, current round number, state. -/
def roundsRun (env : DaemonEnv) : Nat → Nat → RSt → RSt
  | 0, _, st => st
  | rem + 1, rn, st => roundsRun env rem (rn + 1) (roundStep env st rn)

/-- The initial firing state. -/
def dInit : RSt := ⟨0, 0, false, [], []⟩

/-- The state after the first r rounds of the loop. -/
def stateAfter (env : DaemonEnv) (r : Nat) : RSt := roundsRun env r 1 dInit

/-- One full firing run: all fireCount rounds from round 1, followed by the
unconditional clearing of the persisted flag (source line 1182): the final
loop state paired with the imagine env file after update_env. -/
def daemonRun (env : DaemonEnv) : RSt × List String :=
  (roundsRun env env.fireCount 1 dInit, update_env env.imagineEnv keyFIRE valN)

/-- The full processing schedule the claim expects when nothing cancels: in
every round whose window list and prompt list are non-empty, every window
is processed, whether or not any window fails. -/
def expectedProcessed (env : DaemonEnv) : Nat → Nat → List (Nat × Nat)
  | 0, _ => []
  | rem + 1, rn =>
    (if (env.windowsOfRound rn).isEmpty || (env.promptsOfRound rn).isEmpty then []
     else (env.windowsOfRound rn).map (fun w => (rn, w))) ++
      expectedProcessed env rem (rn + 1)

/-- The round numbers rn, rn+1, ... for rem rounds. -/
def roundList : Nat → Nat → List Nat
  | 0, _ => []
  | rem + 1, rn => rn :: roundList rem (rn + 1)

/-! ### Candidate firing loop: no per-window exception handling

Candidate daemon_thread_func (lines 1801-1856) wraps no try/except around
the per-window body; an exception raised by a window operation propagates
out of both loops (indeed every non-skipped shot raises NameError, since
gentle_target_op is referenced as a bare name that is only defined as a
method).  The window loop of one round is modeled in the exception monad:
an error at one window aborts the remainder. -/
def Cand.windowsRun (failing : Nat → Bool) : List Nat → Except Nat (List Nat)
  | [] => Except.ok []
  | w :: ws =>
    if failing w then Except.error w
    else
      match Cand.windowsRun failing ws with
      | Except.ok ps => Except.ok (w :: ps)
      | Except.error e => Except.error e

/-! ### Concrete instances used to exercise the theorems -/

/-- A three-round firing environment in which the flag reads Y for the
first three reads and N afterwards, so cancellation arrives during round
one. -/
def envW : DaemonEnv :=
  { fireCount := 3, burst := 1, modeY := fun t => decide (t < 3),
    failing := fun _ => false, windowsOfRound := fun _ => [7],
    promptsOfRound := fun _ => [("hello")], imagineEnv := [] }

/-- A two-round, two-window firing environment in which window 1 raises on
every operation and nothing cancels. -/
def envF : DaemonEnv :=
  { fireCount := 2, burst := 1, modeY := fun _ => true,
    failing := fun w => decide (w = 1), windowsOfRound := fun _ => [1, 2],
    promptsOfRound := fun _ => [("x")], imagineEnv := [] }

/-- A poll trace with a constant total of two visible windows: poll 1 shows
windows 101 and 102, later polls show 101 and 103; only the title of window
101 matches the pattern used below. -/
def pollsW : Nat → List (String × String) := fun t =>
  if t = 1 then [(("101"), ("chat a")), (("102"), ("zz"))]
  else [(("101"), ("chat a")), (("103"), ("yy"))]

/-! ### Shared lemmas about the tier-file scan -/

/-- Scanning a tier from any starting value yields the tier's own last
definition when there is one, and the starting value otherwise. -/
theorem readKeyFold_init (k : String) (lines : List String) :
    ∀ init, readKeyFold k lines init =
      match tierValue k lines with
      | some v => some v
      | none => init := by
  induction lines with
  | nil => intro init; rfl
  | cons l ls ih =>
    intro init
    show readKeyFold k ls (procLine k init l) =
      match readKeyFold k ls (procLine k none l) with
      | some v => some v
      | none => init
    by_cases hm : matchLine k l = true
    · simp only [procLine, hm, if_pos]
      rcases hv : readKeyFold k ls (some (lineValue l)) with _ | v
      · have := ih (some (lineValue l))
        rw [hv] at this
        rcases h2 : tierValue k ls with _ | w
        · rw [h2] at this; exact absurd this (by simp)
        · rw [h2] at this; exact absurd this (by simp)
      · simp
    · have hm' : matchLine k l = false := by revert hm; cases matchLine k l <;> simp
      simp only [procLine, hm', Bool.false_eq_true, if_false]
      exact ih init

/-- A tier none of whose lines defines the key leaves the scanned value
unchanged. -/
theorem readKeyFold_of_none (k : String) (lines : List String)
    (h : ∀ l ∈ lines, matchLine k l = false) :
    ∀ init, readKeyFold k lines init = init := by
  induction lines with
  | nil => intro init; rfl
  | cons l ls ih =>
    intro init
    show readKeyFold k ls (procLine k init l) = init
    have hl : matchLine k l = false := h l (by simp)
    rw [show procLine k init l = init by simp [procLine, hl]]
    exact ih (fun x hx => h x (by simp [hx])) init

/-- After removing every definition of the key, the tier defines nothing. -/
theorem tierValue_removeKey (k : String) (lines : List String) :
    tierValue k (removeKeyLines lines k) = none := by
  apply readKeyFold_of_none
  intro l hl
  have := List.of_mem_filter hl
  revert this
  cases matchLine k l <;> simp

/-! ### Claim C10 — candidate clipboard restoration -/

/-- Claim C10: the candidate firing loop is claimed to write the earlier
clipboard reading back after the injection sequence, leaving the system
clipboard content unchanged across a window's firing sequence.  False: the
injection sequence never completes — its first gentle_target_op statement
raises NameError (the name is undefined at module scope), so the write-back
at line 1838 is unreachable.  With prior clipboard content a space followed
by x and an ordinary prompt p, the shot sets the clipboard to p (line
1830), then aborts at line 1832; the clipboard ends holding p, not the
prior content. -/
theorem c10_counterexample :
    Cand.clipAfterShot (" x") ("p") ("~") ("#") true = Except.error ("p") ∧
    ("p" : String) ≠ (" x") := by
  constructor
  · rfl
  · decide

/-- Claim C10, amended: every processed (window, round) shot reads the
clipboard before injecting, but the write-back of that reading (line 1838)
is never executed: every branch of the injection sequence aborts with
NameError at its bare gentle_target_op call first.  The clipboard the crash
leaves behind is the prior content untouched in the erase-sentinel branch
(which raises before any clipboard write), the empty string in the
silent-sentinel branch, and the prompt text in the ordinary branch — never
a restoration of the prior content (which, had the sequence completed,
would itself only have been the whitespace-stripped reading). -/
theorem c10_theorem (c0 prompt eraseChar silentChar : String) (fireChain : Bool) :
    Cand.clipAfterShot c0 prompt eraseChar silentChar fireChain =
      (if pyStrip prompt = eraseChar then Except.error c0
       else if pyStrip prompt = silentChar then Except.error emptyS
       else Except.error prompt) := by
  unfold Cand.clipAfterShot Cand.shotOps
  split_ifs <;> rfl

/-! ### Claim C7 — fail-fast on missing required keys -/

/-- Claim C7: a typed configuration read of a required key raises a
configuration error when the key is absent from every tier and never
substitutes a default.  This holds for the primary implementation's
accessors: get_blank_prompt_mode propagates a RuntimeError when the merged
read finds BLANK_PROMPT in no tier. -/
theorem c7_theorem (sys imagine user : List String)
    (hs : tierValue keyBLANK sys = none)
    (hi : tierValue keyBLANK imagine = none)
    (hu : tierValue keyBLANK user = none) :
    get_blank_prompt_mode sys imagine user = Except.error blankErrMsg := by
  have h1 : readKeyFold keyBLANK sys none = none := hs
  have h2 : readKeyFold keyBLANK imagine (readKeyFold keyBLANK sys none) = none := by
    rw [h1, readKeyFold_init, hi]
  have h3 : read_merged_key sys imagine user keyBLANK = none := by
    show readKeyFold keyBLANK user (readKeyFold keyBLANK imagine (readKeyFold keyBLANK sys none)) = none
    rw [h2, readKeyFold_init, hu]
  unfold get_blank_prompt_mode
  rw [h3]

/-- Witness for c7_theorem: with all three tier files empty, the accessor
fails with the configuration error rather than defaulting. -/
theorem c7_witness :
    tierValue keyBLANK [] = none ∧
    get_blank_prompt_mode [] [] [] = Except.error blankErrMsg :=
  ⟨rfl, c7_theorem [] [] [] rfl rfl rfl⟩

/-- Claim C7, counterexample on the candidate: get_merged_multiline (the
candidate's typed accessor for required keys such as DEFAULT_PROMPT) cannot
raise at all; with the key absent from the cache and from both parsed tier
dictionaries it silently returns the empty string as a default (candidate
line 131), contradicting the claim that a missing required key is a raised
configuration error and never a substituted default. -/
theorem c7_counterexample :
    Cand.get_merged_multiline [] [] [] keyBLANK = emptyS := rfl

/-! ### Claim C8 — prompt resolution precedence -/

/-- Scanning a concatenation for the first sentinel prompt scans the two
parts in order. -/
theorem findAtPrompt_append (a b : List String) :
    findAtPrompt (a ++ b) =
      match findAtPrompt a with
      | some p => some p
      | none => findAtPrompt b := by
  induction a with
  | nil => rfl
  | cons p rest ih =>
    show findAtPrompt (p :: (rest ++ b)) = _
    by_cases h : strStartsWith p atS = true
    · simp [findAtPrompt, h]
    · have h' : strStartsWith p atS = false := by
        revert h; cases strStartsWith p atS <;> simp
      simp only [findAtPrompt, h', Bool.false_eq_true, if_false]
      exact ih

/-- Claim C8, amended: for every window and round the candidate resolves
the effective prompt as the per-target persisted active prompt first (the
first stored prompt with the leading at-sign sentinel, scanning stages
1, 2, 3, U in order), then the merged DEFAULT_PROMPT when non-empty, and
otherwise nothing (the window is skipped); the live in-memory prompt text
is never consulted.  Formally: the implementation equals the
specification's precedence chain with the live component forced to none and
the active component being the first sentinel prompt across the
concatenated stages. -/
theorem c8_theorem (s1 s2 s3 su : List String) (d : String) :
    Cand.get_active_prompt_for_url (some (s1, s2, s3, su)) d =
      specPromptResolution none (findAtPrompt (s1 ++ (s2 ++ (s3 ++ su)))) (defaultOpt d) ∧
    Cand.get_active_prompt_for_url none d =
      specPromptResolution none none (defaultOpt d) := by
  constructor
  · show (match Cand.gxiActive s1 s2 s3 su with
      | some p => some p
      | none => defaultOpt d) = _
    rw [findAtPrompt_append, findAtPrompt_append, findAtPrompt_append]
    unfold Cand.gxiActive specPromptResolution
    rcases h1 : findAtPrompt s1 with _ | p1 <;>
      rcases h2 : findAtPrompt s2 with _ | p2 <;>
        rcases h3 : findAtPrompt s3 with _ | p3 <;>
          rcases h4 : findAtPrompt su with _ | p4 <;> simp
  · rfl

/-- Claim C8: the claim states that a live in-memory current-prompt text,
when present, takes priority over the per-target persisted active prompt.
False for the code: the candidate firing loop resolves the prompt through
get_active_prompt_for_url alone (lines 1811-1816), which consults only the
per-target sentinel prompts and the default; in a state with live text
LIVE, a per-target active prompt P and default D, the claimed precedence
yields LIVE while the implementation yields P. -/
theorem c8_counterexample :
    specPromptResolution (some ("LIVE")) (some ("P")) (some ("D")) = some ("LIVE") ∧
    Cand.get_active_prompt_for_url
      (some ((["@P"]), ([] : List String), ([] : List String), ([] : List String)))
      ("D") = some ("P") ∧
    (("P") : String) ≠ ("LIVE") := by
  refine ⟨rfl, ?_, by decide⟩
  rfl

/-! ### Lemmas about update_env and the shape of the line it writes -/

/-- String append acts as list append on the character data. -/
theorem dataAppend (s t : String) : (s ++ t).data = s.data ++ t.data := rfl

/-- A list is a prefix of itself followed by anything. -/
theorem isPrefixL_self_append (a b : List Char) : isPrefixL a (a ++ b) = true := by
  induction a with
  | nil => rfl
  | cons c cs ih => simp [isPrefixL, ih]

/-- A list whose first and last characters are not whitespace is unchanged
by stripping. -/
theorem stripL_eq_self (cs : List Char)
    (hh : ∀ c, cs.head? = some c → isPySpace c = false)
    (hl : ∀ c, cs.getLast? = some c → isPySpace c = false) :
    stripL cs = cs := by
  cases cs with
  | nil => rfl
  | cons a l =>
    have ha : isPySpace a = false := hh a rfl
    have h1 : (a :: l).dropWhile isPySpace = a :: l := by
      rw [List.dropWhile_cons, ha]
      simp
    show rdropWs ((a :: l).dropWhile isPySpace) = a :: l
    rw [h1]
    unfold rdropWs
    rcases hrev : (a :: l).reverse with _ | ⟨d, m⟩
    · exact absurd hrev (by simp)
    · have hd : (a :: l).getLast? = some d := by
        rw [← List.head?_reverse, hrev]
        rfl
      have hwd : isPySpace d = false := hl d hd
      rw [List.dropWhile_cons, hwd]
      simp only [Bool.false_eq_true, if_false]
      rw [← hrev, List.reverse_reverse]

/-- Taking everything after the first '=' walks through a prefix free of
'=' characters. -/
theorem afterEqL_through (ks rest : List Char) (h : ∀ c ∈ ks, ¬(c = '=')) :
    afterEqL (ks ++ '=' :: rest) = rest := by
  induction ks with
  | nil => simp [afterEqL]
  | cons c cs ih =>
    have hc : ¬(c = '=') := h c (by simp)
    show afterEqL (c :: (cs ++ '=' :: rest)) = rest
    unfold afterEqL
    rw [if_neg hc]
    exact ih (fun x hx => h x (by simp [hx]))

/-- Unquoting a double-quote-wrapped value recovers the value. -/
theorem quoteStripL_wrap (v : List Char) :
    quoteStripL (quoteChar :: (v ++ [quoteChar])) = v := by
  unfold quoteStripL
  have h1 : (quoteChar :: (v ++ [quoteChar])).head? = some quoteChar := rfl
  have h2 : (quoteChar :: (v ++ [quoteChar])).getLast? = some quoteChar := by
    rw [← List.head?_reverse]
    simp
  rw [if_pos (Or.inl ⟨h1, h2⟩)]
  simp

/-- The character data of the line update_env writes. -/
theorem newLine_data (k v : String) :
    (k ++ eqQuoteS ++ v ++ quoteS).data =
      k.data ++ ('=' :: quoteChar :: (v.data ++ [quoteChar])) := by
  show (((k ++ eqQuoteS) ++ v) ++ quoteS).data = _
  rw [dataAppend, dataAppend, dataAppend]
  have he : eqQuoteS.data = ['=', quoteChar] := by decide
  have hq : quoteS.data = [quoteChar] := by decide
  rw [he, hq]
  simp

/-- The line update_env writes is already stripped, provided the key is
non-empty and free of whitespace. -/
theorem newLine_strip (k v : String) (hk0 : k.data ≠ [])
    (hkws : ∀ c ∈ k.data, isPySpace c = false) :
    pyStrip (k ++ eqQuoteS ++ v ++ quoteS) = k ++ eqQuoteS ++ v ++ quoteS := by
  have hd := newLine_data k v
  have hself : stripL (k ++ eqQuoteS ++ v ++ quoteS).data
      = (k ++ eqQuoteS ++ v ++ quoteS).data := by
    apply stripL_eq_self
    · intro x hx
      rw [hd] at hx
      rcases hk : k.data with _ | ⟨c, ks⟩
      · exact absurd hk hk0
      · rw [hk] at hx
        have hc : ((c :: ks) ++ ('=' :: quoteChar :: (v.data ++ [quoteChar]))).head?
            = some c := rfl
        rw [hc] at hx
        injection hx with h
        rw [← h]
        exact hkws c (by rw [hk]; simp)
    · intro x hx
      rw [hd] at hx
      have hq : (k.data ++ ('=' :: quoteChar :: (v.data ++ [quoteChar]))).getLast?
          = some quoteChar := by
        rw [← List.head?_reverse]
        simp
      rw [hq] at hx
      injection hx with h
      rw [← h]
      decide
  show (⟨stripL (k ++ eqQuoteS ++ v ++ quoteS).data⟩ : String) = _
  rw [hself]

/-- The line update_env writes defines the key. -/
theorem matchLine_new (k v : String) (hk0 : k.data ≠ [])
    (hkws : ∀ c ∈ k.data, isPySpace c = false) :
    matchLine k (k ++ eqQuoteS ++ v ++ quoteS) = true := by
  unfold matchLine
  rw [newLine_strip k v hk0 hkws]
  unfold strStartsWith
  rw [newLine_data, dataAppend]
  have he : eqS.data = ['='] := by decide
  rw [he]
  rw [show k.data ++ ('=' :: quoteChar :: (v.data ++ [quoteChar]))
      = (k.data ++ ['=']) ++ (quoteChar :: (v.data ++ [quoteChar])) by simp]
  exact isPrefixL_self_append _ _

/-- Reading back the line update_env writes yields exactly the written
value, provided the key is non-empty, free of whitespace and free of '='. -/
theorem lineValue_new (k v : String) (hk0 : k.data ≠ [])
    (hkws : ∀ c ∈ k.data, isPySpace c = false)
    (hkeq : ∀ c ∈ k.data, ¬(c = '=')) :
    lineValue (k ++ eqQuoteS ++ v ++ quoteS) = v := by
  unfold lineValue
  rw [newLine_strip k v hk0 hkws]
  have hafter : afterFirstEq (k ++ eqQuoteS ++ v ++ quoteS)
      = ⟨quoteChar :: (v.data ++ [quoteChar])⟩ := by
    show (⟨afterEqL (k ++ eqQuoteS ++ v ++ quoteS).data⟩ : String) = _
    rw [newLine_data, afterEqL_through k.data _ hkeq]
  rw [hafter]
  have hstr : pyStrip (⟨quoteChar :: (v.data ++ [quoteChar])⟩ : String)
      = ⟨quoteChar :: (v.data ++ [quoteChar])⟩ := by
    show (⟨stripL (quoteChar :: (v.data ++ [quoteChar]))⟩ : String) = _
    rw [stripL_eq_self]
    · intro x hx
      rw [Option.some.inj hx.symm]
      decide
    · intro x hx
      have hq : (quoteChar :: (v.data ++ [quoteChar])).getLast? = some quoteChar := by
        rw [← List.head?_reverse]
        simp
      rw [hq] at hx
      rw [Option.some.inj hx.symm]
      decide
  rw [hstr]
  show (⟨quoteStripL (quoteChar :: (v.data ++ [quoteChar]))⟩ : String) = v
  rw [quoteStripL_wrap]

/-- Scanning a file whose key-defining lines were all replaced by one fixed
defining line yields that line's value, whenever at least one line was
replaced. -/
theorem readKeyFold_map_replace (k v nl : String)
    (hm : matchLine k nl = true) (hv : lineValue nl = v) :
    ∀ (lines : List String) init, lines.any (fun l => matchLine k l) = true →
      readKeyFold k (lines.map (fun l => if matchLine k l then nl else l)) init = some v := by
  intro lines
  induction lines with
  | nil => intro init h; simp at h
  | cons l ls ih =>
    intro init hany
    by_cases hl : matchLine k l = true
    · show readKeyFold k (ls.map _) (procLine k init (if matchLine k l then nl else l)) = some v
      rw [if_pos hl]
      have hstep : procLine k init nl = some v := by simp [procLine, hm, hv]
      rw [hstep]
      by_cases hls : ls.any (fun l => matchLine k l) = true
      · exact ih (some v) hls
      · apply readKeyFold_of_none
        intro l' hl'
        rcases List.mem_map.mp hl' with ⟨x, hx, hfx⟩
        have hxf : matchLine k x = false := by
          rcases hb : matchLine k x with _ | _
          · rfl
          · exact absurd (List.any_eq_true.mpr ⟨x, hx, hb⟩) hls
        rw [← hfx, if_neg (by simp [hxf])]
        exact hxf
    · have hl' : matchLine k l = false := by
        revert hl; cases matchLine k l <;> simp
      have hany' : ls.any (fun l => matchLine k l) = true := by
        rw [List.any_cons, hl'] at hany
        simpa using hany
      show readKeyFold k (ls.map _) (procLine k init (if matchLine k l then nl else l)) = some v
      rw [if_neg (by simp [hl'])]
      rw [show procLine k init l = init by simp [procLine, hl']]
      exact ih init hany'

/-- Scanning the tier produced by update_env always yields the written
value, whatever value was accumulated before the scan; the key must be
non-empty, free of whitespace and free of '='. -/
theorem readKeyFold_update (lines : List String) (k v : String)
    (hk0 : k.data ≠ [])
    (hkws : ∀ c ∈ k.data, isPySpace c = false)
    (hkeq : ∀ c ∈ k.data, ¬(c = '=')) :
    ∀ init, readKeyFold k (update_env lines k v) init = some v := by
  intro init
  have hm := matchLine_new k v hk0 hkws
  have hv := lineValue_new k v hk0 hkws hkeq
  unfold update_env
  by_cases hany : lines.any (fun l => matchLine k l) = true
  · simp only [hany, if_pos]
    exact readKeyFold_map_replace k v _ hm hv lines init hany
  · have hany' : lines.any (fun l => matchLine k l) = false := by
      revert hany; cases lines.any (fun l => matchLine k l) <;> simp
    simp only [hany', Bool.false_eq_true, if_false]
    show readKeyFold k (lines ++ [k ++ eqQuoteS ++ v ++ quoteS]) init = some v
    unfold readKeyFold
    rw [List.foldl_append]
    show procLine k (List.foldl (procLine k) init lines) (k ++ eqQuoteS ++ v ++ quoteS) = some v
    simp [procLine, hm, hv]

/-- The tier produced by update_env defines the written value for the key. -/
theorem tierValue_update (lines : List String) (k v : String)
    (hk0 : k.data ≠ [])
    (hkws : ∀ c ∈ k.data, isPySpace c = false)
    (hkeq : ∀ c ∈ k.data, ¬(c = '=')) :
    tierValue k (update_env lines k v) = some v :=
  readKeyFold_update lines k v hk0 hkws hkeq none

/-! ### Claim C1 — tier precedence -/

/-- Claim C1, amended: for a key defined with different values in the
System and the User tier, a merged read returns the User tier's value; and
when every User-tier definition of the key is removed, a merged read
returns the System tier's value provided the key is not also defined in the
Batch (imagine) tier — when it is, the Batch tier's value is returned
instead. -/
theorem c1_theorem (sys imagine user : List String) (k va vu : String)
    (hsys : tierValue k sys = some va) (huser : tierValue k user = some vu)
    (hne : va ≠ vu) (himagine : tierValue k imagine = none) :
    read_merged_key sys imagine user k = some vu ∧
    read_merged_key sys imagine (removeKeyLines user k) k = some va := by
  constructor
  · show readKeyFold k user (readKeyFold k imagine (readKeyFold k sys none)) = some vu
    rw [readKeyFold_init, huser]
  · show readKeyFold k (removeKeyLines user k)
      (readKeyFold k imagine (readKeyFold k sys none)) = some va
    have h2 : readKeyFold k imagine (readKeyFold k sys none) = some va := by
      rw [show readKeyFold k sys none = some va from hsys, readKeyFold_init, himagine]
    rw [h2, readKeyFold_init, tierValue_removeKey]

/-- Witness for c1_theorem: System defines K as a, the User tier overrides
it with c, the Batch tier leaves it alone; the merged read is c, and
removing the override restores a. -/
theorem c1_witness :
    tierValue ("K") [("K=\"a\"")] = some ("a") ∧
    tierValue ("K") [("K=\"c\"")] = some ("c") ∧
    (("a") : String) ≠ ("c") ∧
    tierValue ("K") ([] : List String) = none ∧
    (read_merged_key [("K=\"a\"")] [] [("K=\"c\"")] ("K") = some ("c") ∧
      read_merged_key [("K=\"a\"")] []
        (removeKeyLines [("K=\"c\"")] ("K")) ("K") = some ("a")) :=
  ⟨by decide, by decide, by decide, rfl,
    c1_theorem [("K=\"a\"")] [] [("K=\"c\"")] ("K") ("a") ("c")
      (by decide) (by decide) (by decide) rfl⟩

/-- Claim C1: the claim states that for a key defined with different values
in the System and User tiers, removing the User-tier definition makes a
merged read return the System value.  False as stated: with K defined as a
in System, b in the Batch (imagine) tier and c in User, the merged read
after removing the User definition returns b, the Batch value, not the
System value a — read_merged_key keeps the last definition across System,
Imagine, User in that order. -/
theorem c1_counterexample :
    tierValue ("K") [("K=\"a\"")] = some ("a") ∧
    tierValue ("K") [("K=\"c\"")] = some ("c") ∧
    (("a") : String) ≠ ("c") ∧
    read_merged_key [("K=\"a\"")] [("K=\"b\"")] [("K=\"c\"")] ("K") = some ("c") ∧
    read_merged_key [("K=\"a\"")] [("K=\"b\"")]
      (removeKeyLines [("K=\"c\"")] ("K")) ("K") = some ("b") ∧
    some (("b") : String) ≠ some ("a") := by
  refine ⟨by decide, by decide, by decide, by decide, by decide, by decide⟩

/-! ### Claim C9 — no caching across mutations -/

/-- Claim C9, amended: in the primary implementation the effective
configuration is recomputed on demand: after update_env writes k as v into
the User tier file, the next merged read of k returns v (the last
definition in tier order), for every well-formed key — non-empty, free of
whitespace and of '='.  The candidate implementation violates the claim
through its startup user cache; see the counterexample. -/
theorem c9_theorem (sys imagine user : List String) (k v : String)
    (hk0 : k.data ≠ [])
    (hkws : ∀ c ∈ k.data, isPySpace c = false)
    (hkeq : ∀ c ∈ k.data, ¬(c = '=')) :
    read_merged_key sys imagine (update_env user k v) k = some v := by
  show readKeyFold k (update_env user k v) _ = some v
  exact readKeyFold_update user k v hk0 hkws hkeq _

/-- Witness for c9_theorem: overwriting K in a user tier that already
defined it, the merged read returns the new value. -/
theorem c9_witness :
    (("K") : String).data ≠ [] ∧
    read_merged_key [] [] (update_env [("K=\"old\"")] ("K") ("val")) ("K") = some ("val") :=
  ⟨by decide,
    c9_theorem [] [] [("K=\"old\"")] ("K") ("val") (by decide) (by decide) (by decide)⟩

/-- Claim C9: the claim states the effective map is recomputed on demand
with no caching across mutations, so a set to the User tier is seen by the
next merged read.  False for the candidate implementation: the user tier is
cached once at startup (user_cache, candidate line 239) and merged reads
consult only that cache for the user tier; after update_env writes K as new
into the user file (visible to a fresh read of the file), the merged read
still returns the stale cached value old. -/
theorem c9_counterexample :
    Cand.read_key (Cand.update_env [] ("K") ("new")) ("K") = some ("new") ∧
    Cand.read_merged_key [(("K"), ("old"))] [] [] ("K") = some ("old") ∧
    some (("old") : String) ≠ some ("new") := by
  refine ⟨by decide, by decide, by decide⟩

/-! ### Lemmas about the firing round loop -/

/-- Splitting the round loop: running a + b rounds runs a rounds, then b
rounds from the resulting state. -/
theorem roundsRun_add (env : DaemonEnv) (a : Nat) :
    ∀ (b rn : Nat) (st : RSt),
      roundsRun env (a + b) rn st = roundsRun env b (rn + a) (roundsRun env a rn st) := by
  induction a with
  | zero => intro b rn st; simp [roundsRun]
  | succ a ih =>
    intro b rn st
    have h1 : a + 1 + b = (a + b) + 1 := by omega
    rw [h1]
    show roundsRun env (a + b) (rn + 1) (roundStep env st rn)
      = roundsRun env b (rn + (a + 1)) (roundsRun env a (rn + 1) (roundStep env st rn))
    rw [ih]
    have h2 : rn + 1 + a = rn + (a + 1) := by omega
    rw [h2]

/-- A broken state absorbs the rest of the round loop. -/
theorem roundsRun_broke (env : DaemonEnv) :
    ∀ (rem rn : Nat) (st : RSt), st.broke = true → roundsRun env rem rn st = st := by
  intro rem
  induction rem with
  | zero => intro rn st _; rfl
  | succ rem ih =>
    intro rn st h
    show roundsRun env rem (rn + 1) (roundStep env st rn) = st
    rw [show roundStep env st rn = st by simp [roundStep, h]]
    exact ih (rn + 1) st h

/-- One round step adds at most its own round number to the entered list. -/
theorem roundStep_entered (env : DaemonEnv) (st : RSt) (rn : Nat) :
    ∀ q ∈ (roundStep env st rn).entered, q ∈ st.entered ∨ q = rn := by
  intro q hq
  simp only [roundStep] at hq
  split_ifs at hq with h1 h2 h3
  · left; exact hq
  · simpa using hq
  · simpa using hq
  · left; exact hq

/-- Every round number the loop enters lies in the window of rounds it was
given. -/
theorem roundsRun_entered (env : DaemonEnv) :
    ∀ (rem rn : Nat) (st : RSt), ∀ q ∈ (roundsRun env rem rn st).entered,
      q ∈ st.entered ∨ (rn ≤ q ∧ q < rn + rem) := by
  intro rem
  induction rem with
  | zero => intro rn st q hq; left; exact hq
  | succ rem ih =>
    intro rn st q hq
    rcases ih (rn + 1) (roundStep env st rn) q hq with h | h
    · rcases roundStep_entered env st rn q h with h2 | h2
      · left; exact h2
      · right; omega
    · right; omega

/-! ### Claim C2 — cooperative cancellation -/

/-- Claim C2: when the persisted firing flag reads N at the first check
after round r of a session of fireCount rounds with r below fireCount — the
flag was set back to N during round r — no round after r is entered, and on
exit the loop writes N into the persisted FIRE_MODE key of the imagine
tier, which then defines N. -/
theorem c2_theorem (env : DaemonEnv) (r : Nat) (hr : r < env.fireCount)
    (hset : env.modeY (stateAfter env r).t = false) :
    (∀ q ∈ (daemonRun env).1.entered, q ≤ r) ∧
    tierValue keyFIRE (daemonRun env).2 = some valN := by
  constructor
  · intro q hq
    have hsplit : env.fireCount = r + (env.fireCount - r) := by omega
    have h1 : (daemonRun env).1 = roundsRun env (r + (env.fireCount - r)) 1 dInit := by
      show roundsRun env env.fireCount 1 dInit = _
      rw [← hsplit]
    rw [h1, roundsRun_add] at hq
    obtain ⟨m, hm⟩ : ∃ m, env.fireCount - r = m + 1 := ⟨env.fireCount - r - 1, by omega⟩
    rw [hm] at hq
    have hq2 : q ∈ (roundsRun env m (1 + r + 1)
        (roundStep env (roundsRun env r 1 dInit) (1 + r))).entered := hq
    have hset' : env.modeY (roundsRun env r 1 dInit).t = false := hset
    have hfin : q ∈ (roundsRun env r 1 dInit).entered := by
      by_cases hb : (roundsRun env r 1 dInit).broke = true
      · have hstep : roundStep env (roundsRun env r 1 dInit) (1 + r)
            = roundsRun env r 1 dInit := by simp [roundStep, hb]
        rw [hstep, roundsRun_broke env m _ _ hb] at hq2
        exact hq2
      · have hb' : (roundsRun env r 1 dInit).broke = false := by
          revert hb; cases (roundsRun env r 1 dInit).broke <;> simp
        have hstep : roundStep env (roundsRun env r 1 dInit) (1 + r)
            = { roundsRun env r 1 dInit with
                t := (roundsRun env r 1 dInit).t + 1, broke := true } := by
          unfold roundStep
          rw [hb']
          simp [hset']
        rw [hstep, roundsRun_broke env m _ _ rfl] at hq2
        exact hq2
    rcases roundsRun_entered env r 1 dInit q hfin with h | h
    · exact absurd h (by simp [dInit])
    · omega
  · show tierValue keyFIRE (update_env env.imagineEnv keyFIRE valN) = some valN
    exact tierValue_update _ _ _ (by decide) (by decide) (by decide)

/-- Witness for c2_theorem: in envW the flag is set during round one of
three; only round one is entered and the flag ends cleared. -/
theorem c2_witness :
    1 < envW.fireCount ∧ envW.modeY (stateAfter envW 1).t = false ∧
    ((∀ q ∈ (daemonRun envW).1.entered, q ≤ 1) ∧
      tierValue keyFIRE (daemonRun envW).2 = some valN) :=
  ⟨by decide, by decide, c2_theorem envW 1 (by decide) (by decide)⟩

/-! ### Claim C3 — per-window failure isolation -/

/-- Claim C3: a window that raises on every operation must not prevent the
remaining windows of the round nor the later rounds from being processed.
The primary implementation satisfies this: in envF, window 1 raises on
every operation in both rounds, yet the processed schedule covers both
windows of both rounds and both rounds are entered (the per-window
try/except at primary lines 960-1177 catches, logs and continues).  The
candidate implementation is the code bug: its loop (lines 1807-1851) has no
exception handling, so the same failing input aborts the round at window 1
and window 2 is never processed, while without the failure both windows
complete. -/
theorem c3_theorem :
    (daemonRun envF).1.processed = [(1, 1), (1, 2), (2, 1), (2, 2)] ∧
    (daemonRun envF).1.entered = [1, 2] ∧
    Cand.windowsRun envF.failing [1, 2] = Except.error 1 ∧
    Cand.windowsRun (fun _ => false) [1, 2] = Except.ok [1, 2] :=
  ⟨by decide, by decide, rfl, rfl⟩

/-! ### Lemmas about the grid planner -/

/-- The width-constrained column maximum is at least one. -/
theorem maxColsByWidth_pos (availW cellW es : Nat) : 1 ≤ maxColsByWidth availW cellW es := by
  unfold maxColsByWidth
  split
  · exact Nat.le_add_right 1 _
  · exact Nat.le_refl 1

/-- The chosen column count never exceeds the width-constrained maximum. -/
theorem gridCols_le (n mc : Nat) : gridCols n mc ≤ mc ∨ gridCols n mc = (n + 1) / 2 := by
  unfold gridCols
  split
  · right; rfl
  · left; exact Nat.le_refl mc

/-- The plan always has capacity for the requested windows. -/
theorem gridCapacity (n mc : Nat) (hn : 1 ≤ n) (hmc : 1 ≤ mc) :
    n ≤ gridCols n mc * gridRows n mc := by
  by_cases h : (n + 1) / 2 ≤ mc
  · have hc : gridCols n mc = (n + 1) / 2 := by unfold gridCols; rw [if_pos h]
    have hr : gridRows n mc = 2 := by unfold gridRows; rw [if_pos h]
    rw [hc, hr]
    omega
  · have hc : gridCols n mc = mc := by unfold gridCols; rw [if_neg h]
    have hr : gridRows n mc = (n + mc - 1) / mc := by
      unfold gridRows
      rw [if_neg h, hc]
    rw [hc, hr]
    have hdm := Nat.div_add_mod (n + mc - 1) mc
    have hmod : (n + mc - 1) % mc < mc := Nat.mod_lt _ (by omega)
    generalize hP : mc * ((n + mc - 1) / mc) = P at hdm ⊢
    omega

/-- The step chosen per axis keeps the occupied extent within the available
extent, provided the cell itself fits and either the minimum advance fits
or there is at least one pixel of slack per gap. -/
theorem stepFor_le (cell avail cnt es : Nat) (hca : cell ≤ avail)
    (h : cell + (cnt - 1) * es ≤ avail ∨ cnt - 1 ≤ avail - cell) :
    cell + (cnt - 1) * stepFor cell avail cnt es ≤ avail := by
  unfold stepFor
  by_cases h1 : cnt = 1
  · simp [h1]
    omega
  · rw [if_neg h1]
    by_cases h2 : cell + (cnt - 1) * es ≤ avail
    · rw [if_pos h2]
      rcases Nat.le_total es ((avail - cell) / (cnt - 1)) with hle | hle
      · rw [Nat.max_eq_right hle]
        have hd : (cnt - 1) * ((avail - cell) / (cnt - 1)) ≤ avail - cell := by
          rw [Nat.mul_comm]
          exact Nat.div_mul_le_self _ _
        omega
      · rw [Nat.max_eq_left hle]
        exact h2
    · rw [if_neg h2]
      have h3 : cnt - 1 ≤ avail - cell := h.resolve_left h2
      rcases Nat.eq_zero_or_pos (cnt - 1) with hz | hpos
      · rw [hz] at h2
        exact absurd (by omega) h2
      · have hq1 : 1 ≤ (avail - cell) / (cnt - 1) := (Nat.one_le_div_iff hpos).mpr h3
        rw [Nat.max_eq_right hq1]
        have hd : (cnt - 1) * ((avail - cell) / (cnt - 1)) ≤ avail - cell := by
          rw [Nat.mul_comm]
          exact Nat.div_mul_le_self _ _
        omega

/-- When the cell fits the available width, the minimum advance times the
chosen gap count fits too, because the column count is bounded by the
width-constrained maximum. -/
theorem widthFit (n availW cellW es : Nat) (hw : cellW ≤ availW) :
    cellW + (gridCols n (maxColsByWidth availW cellW es) - 1) * es ≤ availW := by
  have hdm : ((availW - cellW) / es) * es ≤ availW - cellW := Nat.div_mul_le_self _ _
  have hmc : maxColsByWidth availW cellW es = 1 + (availW - cellW) / es := by
    unfold maxColsByWidth
    rw [if_pos hw]
  generalize hD : (availW - cellW) / es = D at hdm hmc
  have hcols : gridCols n (maxColsByWidth availW cellW es) ≤ 1 + D := by
    unfold gridCols
    rw [hmc]
    split
    · assumption
    · exact Nat.le_refl _
  have hstep : (gridCols n (maxColsByWidth availW cellW es) - 1) * es ≤ D * es :=
    Nat.mul_le_mul_right es (by omega)
  have h4 : (gridCols n (maxColsByWidth availW cellW es) - 1) * es ≤ availW - cellW :=
    le_trans hstep hdm
  calc cellW + (gridCols n (maxColsByWidth availW cellW es) - 1) * es
      ≤ cellW + (availW - cellW) := Nat.add_le_add_left h4 _
    _ = availW := Nat.add_sub_cancel' hw

/-! ### Claim C4 — grid capacity and area invariant -/

/-- Claim C4: the plan is claimed never to exceed the available screen area
for every window count, cell size, screen size and overlap percentage.
False: a cell wider than the available width overflows horizontally even
for one window (640-wide cell, 600-wide screen leaves 560 available), and a
forced tall grid whose row count exceeds the vertical slack overflows
vertically (2200 windows at 640x500 on 1920x1080: 550 rows at the clamped
1-pixel step occupy 1049 of the 1040 available). -/
theorem c4_counterexample :
    (600 - 40 < 640 + ((gridPlan 1 640 500 600 1080 40).cols - 1)
      * (gridPlan 1 640 500 600 1080 40).stepX) ∧
    (1080 - 40 < 500 + ((gridPlan 2200 640 500 1920 1080 40).rows - 1)
      * (gridPlan 2200 640 500 1920 1080 40).stepY) := by
  refine ⟨by decide, by decide⟩

/-- Claim C4, amended: for every window count n at least 1, the plan
satisfies cols * rows at least n; and the occupied width cellW + (cols - 1)
* stepX and occupied height cellH + (rows - 1) * stepY stay within the
available area (screen minus the fixed 20-pixel margin on all sides),
provided the cell fits the available area in both dimensions and the
available height exceeds the cell height by at least rows - 1 pixels (the
slack consumed by the clamped minimum step when the grid must compress). -/
theorem c4_theorem (n cellW cellH sw sh overlap : Nat) (hn : 1 ≤ n)
    (hw : cellW ≤ sw - 40) (hh : cellH ≤ sh - 40)
    (hrows : (gridPlan n cellW cellH sw sh overlap).rows - 1 ≤ (sh - 40) - cellH) :
    n ≤ (gridPlan n cellW cellH sw sh overlap).cols
        * (gridPlan n cellW cellH sw sh overlap).rows ∧
    cellW + ((gridPlan n cellW cellH sw sh overlap).cols - 1)
        * (gridPlan n cellW cellH sw sh overlap).stepX ≤ sw - 40 ∧
    cellH + ((gridPlan n cellW cellH sw sh overlap).rows - 1)
        * (gridPlan n cellW cellH sw sh overlap).stepY ≤ sh - 40 := by
  have hc : (gridPlan n cellW cellH sw sh overlap).cols
      = gridCols n (maxColsByWidth (sw - 40) cellW (effStep cellW overlap)) := rfl
  have hr : (gridPlan n cellW cellH sw sh overlap).rows
      = gridRows n (maxColsByWidth (sw - 40) cellW (effStep cellW overlap)) := rfl
  have hx : (gridPlan n cellW cellH sw sh overlap).stepX
      = stepFor cellW (sw - 40)
          (gridCols n (maxColsByWidth (sw - 40) cellW (effStep cellW overlap)))
          (effStep cellW overlap) := rfl
  have hy : (gridPlan n cellW cellH sw sh overlap).stepY
      = stepFor cellH (sh - 40)
          (gridRows n (maxColsByWidth (sw - 40) cellW (effStep cellW overlap)))
          (effStep cellH overlap) := rfl
  refine ⟨?_, ?_, ?_⟩
  · rw [hc, hr]
    exact gridCapacity n _ hn (maxColsByWidth_pos _ _ _)
  · rw [hc, hx]
    exact stepFor_le cellW (sw - 40) _ _ hw (Or.inl (widthFit n (sw - 40) cellW _ hw))
  · rw [hr, hy]
    refine stepFor_le cellH (sh - 40) _ _ hh (Or.inr ?_)
    rw [← hr]
    exact hrows

/-- Witness for c4_theorem: the specification's own example scenario, five
windows of 640 by 500 on a 1920 by 1080 screen with a 40 percent overlap
budget; the plan chooses three columns and two rows and fits the available
1880 by 1040 area. -/
theorem c4_witness :
    1 ≤ 5 ∧ 640 ≤ 1920 - 40 ∧ 500 ≤ 1080 - 40 ∧
    (gridPlan 5 640 500 1920 1080 40).rows - 1 ≤ (1080 - 40) - 500 ∧
    (5 ≤ (gridPlan 5 640 500 1920 1080 40).cols * (gridPlan 5 640 500 1920 1080 40).rows ∧
      640 + ((gridPlan 5 640 500 1920 1080 40).cols - 1)
        * (gridPlan 5 640 500 1920 1080 40).stepX ≤ 1920 - 40 ∧
      500 + ((gridPlan 5 640 500 1920 1080 40).rows - 1)
        * (gridPlan 5 640 500 1920 1080 40).stepY ≤ 1080 - 40) :=
  ⟨by decide, by decide, by decide, by decide,
    c4_theorem 5 640 500 1920 1080 40 (by decide) (by decide) (by decide) (by decide)⟩

/-! ### Lemmas about substrings and stripping (for the discovery matcher) -/

/-- Dropping a prefix never lengthens a list. -/
theorem dropWhileLenLe {α : Type} (p : α → Bool) :
    ∀ l : List α, (l.dropWhile p).length ≤ l.length := by
  intro l
  induction l with
  | nil => simp
  | cons a t ih =>
    rw [List.dropWhile_cons]
    split
    · exact le_trans ih (by simp)
    · exact Nat.le_refl _

/-- A dropWhile that preserves the length is the identity. -/
theorem dropWhile_eq_self_of_len {α : Type} (p : α → Bool) (l : List α)
    (h : (l.dropWhile p).length = l.length) : l.dropWhile p = l := by
  have hsplit := List.takeWhile_append_dropWhile p l
  have hlen : (l.takeWhile p).length + (l.dropWhile p).length = l.length := by
    rw [← List.length_append, hsplit]
  have htw : l.takeWhile p = [] := List.length_eq_zero.mp (by omega)
  calc l.dropWhile p = l.takeWhile p ++ l.dropWhile p := by rw [htw]; rfl
    _ = l := hsplit

/-- A list equal to its own strip is unchanged by the leading drop. -/
theorem stripL_self_dropWhile (n : List Char) (h : stripL n = n) :
    n.dropWhile isPySpace = n := by
  apply dropWhile_eq_self_of_len
  have h1 : (stripL n).length ≤ (n.dropWhile isPySpace).length := by
    unfold stripL rdropWs
    rw [List.length_reverse]
    refine le_trans (dropWhileLenLe _ _) ?_
    rw [List.length_reverse]
  have h2 : (n.dropWhile isPySpace).length ≤ n.length := dropWhileLenLe _ _
  rw [h] at h1
  omega

/-- A list equal to its own strip has a reverse unchanged by the leading
drop. -/
theorem stripL_self_rev (n : List Char) (h : stripL n = n) :
    n.reverse.dropWhile isPySpace = n.reverse := by
  have hd := stripL_self_dropWhile n h
  have h2 : (n.reverse.dropWhile isPySpace).reverse = n := by
    have h3 := h
    unfold stripL rdropWs at h3
    rw [hd] at h3
    exact h3
  have h4 := congrArg List.reverse h2
  rw [List.reverse_reverse] at h4
  exact h4

/-- If dropping from a cons keeps the cons, its head fails the predicate. -/
theorem dropWhile_cons_self {α : Type} (p : α → Bool) (a : α) (l : List α)
    (h : (a :: l).dropWhile p = a :: l) : p a = false := by
  rcases hb : p a with _ | _
  · rfl
  · rw [List.dropWhile_cons, hb] at h
    simp at h
    have h2 := dropWhileLenLe p l
    rw [h] at h2
    simp at h2

/-- Dropping a prefix passes over any prelude and stops no later than a
non-matching character. -/
theorem dropWhile_keeps {α : Type} (p : α → Bool) (c : α) (hc : p c = false) :
    ∀ (u rest : List α), ∃ u2, (u ++ c :: rest).dropWhile p = u2 ++ c :: rest := by
  intro u
  induction u with
  | nil =>
    intro rest
    refine ⟨[], ?_⟩
    rw [List.nil_append, List.dropWhile_cons, hc]
    simp
  | cons a t ih =>
    intro rest
    rw [List.cons_append, List.dropWhile_cons]
    rcases hb : p a with _ | _
    · simp only [Bool.false_eq_true, if_false]
      exact ⟨a :: t, rfl⟩
    · simp only [if_true]
      exact ih rest

/-- The prefix test agrees with the existence of a completing suffix. -/
theorem isPrefixL_iff (n : List Char) :
    ∀ h, isPrefixL n h = true ↔ ∃ v, h = n ++ v := by
  induction n with
  | nil =>
    intro h
    constructor
    · intro _; exact ⟨h, rfl⟩
    · intro _; rfl
  | cons a t ih =>
    intro h
    cases h with
    | nil =>
      constructor
      · intro hh; exact absurd hh (by simp [isPrefixL])
      · rintro ⟨v, hv⟩; exact absurd hv (by simp)
    | cons b hs =>
      show (decide (a = b) && isPrefixL t hs) = true ↔ _
      rw [Bool.and_eq_true]
      constructor
      · rintro ⟨h1, h2⟩
        have hab : a = b := of_decide_eq_true h1
        rcases (ih hs).mp h2 with ⟨v, hv⟩
        refine ⟨v, ?_⟩
        rw [hv, hab]
        rfl
      · rintro ⟨v, hv⟩
        injection hv with h1 h2
        exact ⟨decide_eq_true h1.symm, (ih hs).mpr ⟨v, h2⟩⟩

/-- The empty needle is a substring of everything (Python semantics). -/
theorem isSubstrL_nil (h : List Char) : isSubstrL [] h = true := by
  cases h <;> simp [isSubstrL, isPrefixL]

/-- The substring test agrees with the existence of a split. -/
theorem isSubstrL_iff (n : List Char) :
    ∀ h, isSubstrL n h = true ↔ ∃ u v, h = u ++ (n ++ v) := by
  intro h
  induction h with
  | nil =>
    constructor
    · intro hh
      have hn : n = [] := by
        cases n with
        | nil => rfl
        | cons a t => exact absurd hh (by simp [isSubstrL])
      exact ⟨[], [], by simp [hn]⟩
    · rintro ⟨u, v, huv⟩
      have h0 := huv.symm
      rw [List.append_eq_nil] at h0
      have h1 := h0.2
      rw [List.append_eq_nil] at h1
      rw [h1.1]
      rfl
  | cons c hs ih =>
    show (isPrefixL n (c :: hs) || isSubstrL n hs) = true ↔ _
    rw [Bool.or_eq_true]
    constructor
    · rintro (hp | hsub)
      · rcases (isPrefixL_iff n (c :: hs)).mp hp with ⟨v, hv⟩
        exact ⟨[], v, by simpa using hv⟩
      · rcases ih.mp hsub with ⟨u, v, huv⟩
        refine ⟨c :: u, v, ?_⟩
        rw [List.cons_append, ← huv]
    · rintro ⟨u, v, huv⟩
      cases u with
      | nil =>
        left
        apply (isPrefixL_iff n (c :: hs)).mpr
        exact ⟨v, by simpa using huv⟩
      | cons a u2 =>
        right
        apply ih.mpr
        rw [List.cons_append] at huv
        injection huv with h1 h2
        exact ⟨u2, v, h2⟩

/-- Every list is its own strip surrounded by the dropped margins. -/
theorem exists_stripL_infix (h : List Char) : ∃ u v, h = u ++ (stripL h ++ v) := by
  have h1 := List.takeWhile_append_dropWhile isPySpace h
  have h2 := List.takeWhile_append_dropWhile isPySpace (h.dropWhile isPySpace).reverse
  have h3 := congrArg List.reverse h2
  rw [List.reverse_append, List.reverse_reverse] at h3
  refine ⟨h.takeWhile isPySpace,
    ((h.dropWhile isPySpace).reverse.takeWhile isPySpace).reverse, ?_⟩
  show h = h.takeWhile isPySpace ++ (rdropWs (h.dropWhile isPySpace) ++ _)
  unfold rdropWs
  rw [h3, h1]

/-- The heart of the matcher equivalence: for a needle already stripped of
surrounding whitespace, substring membership in the stripped haystack and
in the raw haystack coincide — a match can neither begin in the dropped
leading whitespace nor end in the dropped trailing whitespace, because the
needle's own edges are not whitespace. -/
theorem isSubstrL_stripL_cons (c : Char) (n2 : List Char) (h : List Char)
    (hn : stripL (c :: n2) = c :: n2) :
    isSubstrL (c :: n2) (stripL h) = isSubstrL (c :: n2) h := by
  set n : List Char := c :: n2 with hnn
  have hd : n.dropWhile isPySpace = n := stripL_self_dropWhile n hn
  have hrev : n.reverse.dropWhile isPySpace = n.reverse := stripL_self_rev n hn
  have hc : isPySpace c = false := by
    apply dropWhile_cons_self isPySpace c n2
    exact hd
  obtain ⟨d, m, hrevn⟩ : ∃ d m, n.reverse = d :: m := by
    rcases hr : n.reverse with _ | ⟨d, m⟩
    · have h4 := congrArg List.reverse hr
      rw [List.reverse_reverse] at h4
      simp [hnn] at h4
    · exact ⟨d, m, rfl⟩
  have hdws : isPySpace d = false := by
    apply dropWhile_cons_self isPySpace d m
    rw [← hrevn]
    exact hrev
  have dir1 : isSubstrL n h = true → isSubstrL n (stripL h) = true := by
    intro hs
    rcases (isSubstrL_iff n h).mp hs with ⟨u, v, huv⟩
    have huv2 : h = u ++ (c :: (n2 ++ v)) := by
      rw [huv, hnn]
      rfl
    obtain ⟨u2, hu2⟩ := dropWhile_keeps isPySpace c hc u (n2 ++ v)
    rw [← huv2] at hu2
    have hu3 : h.dropWhile isPySpace = u2 ++ (n ++ v) := by
      rw [hu2, hnn]
      rfl
    have hrev2 : (h.dropWhile isPySpace).reverse
        = v.reverse ++ (d :: (m ++ u2.reverse)) := by
      rw [hu3, List.reverse_append, List.reverse_append, hrevn]
      simp
    obtain ⟨v2, hv2⟩ := dropWhile_keeps isPySpace d hdws v.reverse (m ++ u2.reverse)
    rw [← hrev2] at hv2
    have hstrip : stripL h = u2 ++ (n ++ v2.reverse) := by
      show rdropWs (h.dropWhile isPySpace) = _
      unfold rdropWs
      rw [hv2, List.reverse_append]
      have h5 : (d :: (m ++ u2.reverse)).reverse = u2 ++ (d :: m).reverse := by
        simp
      rw [h5]
      have h6 : (d :: m).reverse = n := by
        rw [← hrevn, List.reverse_reverse]
      rw [h6]
      simp
    apply (isSubstrL_iff n (stripL h)).mpr
    exact ⟨u2, v2.reverse, hstrip⟩
  have dir2 : isSubstrL n (stripL h) = true → isSubstrL n h = true := by
    intro hs
    rcases (isSubstrL_iff n (stripL h)).mp hs with ⟨u, v, huv⟩
    rcases exists_stripL_infix h with ⟨a, b, hab⟩
    apply (isSubstrL_iff n h).mpr
    refine ⟨a ++ u, v ++ b, ?_⟩
    rw [hab, huv]
    simp
  rcases hb1 : isSubstrL n h with _ | _
  · rcases hb2 : isSubstrL n (stripL h) with _ | _
    · rfl
    · exact absurd (dir2 hb2) (by simp [hb1])
  · exact dir1 hb1

/-- Substring membership in stripped and raw haystacks coincides for every
needle that is already stripped. -/
theorem isSubstrL_stripL (n h : List Char) (hn : stripL n = n) :
    isSubstrL n (stripL h) = isSubstrL n h := by
  cases n with
  | nil => rw [isSubstrL_nil, isSubstrL_nil]
  | cons c n2 => exact isSubstrL_stripL_cons c n2 h hn

/-- Reading back the code point a valid code point was packed from. -/
theorem charToNat_ofNat (n : Nat) (h : n.isValidChar) : (Char.ofNat n).toNat = n := by
  unfold Char.ofNat
  rw [dif_pos h]
  rfl

/-- A character with code point 33 or above is not whitespace. -/
theorem isPySpace_false_of_toNat (d : Char) (h1 : 33 ≤ d.toNat) : isPySpace d = false := by
  unfold isPySpace
  have e1 : decide (d = ' ') = false :=
    decide_eq_false (fun he => by rw [he] at h1; exact absurd h1 (by decide))
  have e2 : decide (d = '\t') = false :=
    decide_eq_false (fun he => by rw [he] at h1; exact absurd h1 (by decide))
  have e3 : decide (d = '\n') = false :=
    decide_eq_false (fun he => by rw [he] at h1; exact absurd h1 (by decide))
  have e4 : decide (d = '\r') = false :=
    decide_eq_false (fun he => by rw [he] at h1; exact absurd h1 (by decide))
  have e5 : decide (d = Char.ofNat 11) = false :=
    decide_eq_false (fun he => by rw [he] at h1; exact absurd h1 (by decide))
  have e6 : decide (d = Char.ofNat 12) = false :=
    decide_eq_false (fun he => by rw [he] at h1; exact absurd h1 (by decide))
  rw [e1, e2, e3, e4, e5, e6]
  rfl

/-- ASCII lower-casing does not change whether a character is whitespace. -/
theorem isPySpace_lowerChar (c : Char) : isPySpace (lowerChar c) = isPySpace c := by
  unfold lowerChar
  split_ifs with h
  · have hv : (c.toNat + 32).isValidChar := by
      unfold Nat.isValidChar
      exact Or.inl (by omega)
    have ht : (Char.ofNat (c.toNat + 32)).toNat = c.toNat + 32 := charToNat_ofNat _ hv
    have h1 : isPySpace (Char.ofNat (c.toNat + 32)) = false :=
      isPySpace_false_of_toNat _ (by rw [ht]; omega)
    have h2 : isPySpace c = false := isPySpace_false_of_toNat c (by omega)
    rw [h1, h2]
  · rfl

/-- Stripping commutes with lower-casing. -/
theorem stripL_map_lower (l : List Char) :
    stripL (l.map lowerChar) = (stripL l).map lowerChar := by
  have hcomp : (isPySpace ∘ lowerChar) = isPySpace := by
    funext c
    exact isPySpace_lowerChar c
  unfold stripL rdropWs
  rw [List.dropWhile_map, hcomp, ← List.map_reverse, List.dropWhile_map, hcomp,
    ← List.map_reverse]

/-- Pointwise equal predicates give equal any-scans. -/
theorem anyCongr {α : Type} (l : List α) (f g : α → Bool)
    (h : ∀ x ∈ l, f x = g x) : l.any f = l.any g := by
  induction l with
  | nil => rfl
  | cons a t ih =>
    rw [List.any_cons, List.any_cons, h a (by simp),
      ih (fun x hx => h x (by simp [hx]))]

/-! ### Claim C6 — discovery title matching -/

/-- Claim C6, amended: in the primary implementation, the matched set of a
poll consists of exactly those visible windows whose title contains, as a
case-insensitive substring, at least one configured pattern — the loop's
stripping of the title before matching changes nothing, for patterns that
carry no surrounding whitespace (as the WINDOW_PATTERNS parse produces for
ordinary configurations).  The candidate implementation instead matches by
case-insensitive equality of the whole title; see the counterexample. -/
theorem c6_theorem (pats : List String) (poll : List (String × String))
    (hedge : ∀ p ∈ pats, stripL p.data = p.data) :
    matchedLoop pats poll = claimMatched pats poll := by
  induction poll with
  | nil => rfl
  | cons wt rest ih =>
    have hcond : (pats.any (fun p => isSubstrL p.data (strLower (pyStrip wt.2)).data))
        = (pats.any (fun p => isSubstrL p.data (strLower wt.2).data)) := by
      apply anyCongr
      intro p hp
      show isSubstrL p.data ((stripL wt.2.data).map lowerChar)
        = isSubstrL p.data (wt.2.data.map lowerChar)
      rw [← stripL_map_lower]
      exact isSubstrL_stripL p.data _ (hedge p hp)
    have hstep : matchedLoop pats (wt :: rest)
        = (if pats.any (fun p => isSubstrL p.data (strLower wt.2).data) = true then
            wt.1 :: matchedLoop pats rest
          else matchedLoop pats rest) := by
      show (if pats.any (fun p => isSubstrL p.data (strLower (pyStrip wt.2)).data) = true then
          wt.1 :: matchedLoop pats rest
        else matchedLoop pats rest) = _
      rw [hcond]
    have hclaim : claimMatched pats (wt :: rest)
        = (if pats.any (fun p => isSubstrL p.data (strLower wt.2).data) = true then
            wt.1 :: claimMatched pats rest
          else claimMatched pats rest) := by
      unfold claimMatched
      rw [List.filter_cons]
      split_ifs with hcc
      · rw [List.map_cons]
      · rfl
    rw [hstep, hclaim, ih]

/-- Witness for c6_theorem: two visible windows against the parsed pattern
configuration Firefox, chat; only the browser window matches, identically
under the loop and under the specification filter. -/
theorem c6_witness :
    (∀ p ∈ parsePatterns ("Firefox, chat"), stripL p.data = p.data) ∧
    matchedLoop (parsePatterns ("Firefox, chat"))
        [(("301"), ("Mozilla Firefox")), (("302"), ("xterm"))]
      = claimMatched (parsePatterns ("Firefox, chat"))
        [(("301"), ("Mozilla Firefox")), (("302"), ("xterm"))] :=
  ⟨by decide, c6_theorem _ _ (by decide)⟩

/-- Claim C6: the claim states the matched set consists of exactly the
windows whose title contains a pattern as a case-insensitive substring.
False for the candidate implementation (lines 2131-2138): it requires the
whole lowered title to equal one of the patterns, so the window titled
Mozilla Firefox, whose title contains the pattern firefox, is matched by
the specification filter and by the primary loop but not by the
candidate. -/
theorem c6_counterexample :
    claimMatched [("firefox")] [(("1"), ("Mozilla Firefox"))] = [("1")] ∧
    matchedLoop [("firefox")] [(("1"), ("Mozilla Firefox"))] = [("1")] ∧
    Cand.matchedPoll [("firefox")] [(("1"), ("Mozilla Firefox"))] = ([] : List String) ∧
    ([] : List String) ≠ [("1")] := by
  refine ⟨by decide, by decide, by decide, by decide⟩

/-! ### Lemmas about the discovery loop -/

/-- One unfolding of the discovery loop body. -/
theorem discLoop_step (polls : Nat → List (String × String)) (pats : List String)
    (expected fuel a : Nat) (lt : Option Nat) (stag : Nat) (lm : List String) :
    discLoop polls pats expected (fuel + 1) a lt stag lm =
      (if expected ≤ (matchedLoop pats (polls a)).length then
        ⟨a, some (matchedLoop pats (polls a)), DiscReason.enough⟩
      else if 3 ≤ (if lt = some (polls a).length then stag + 1 else 0) then
        ⟨a, optOfList (if (matchedLoop pats (polls a)).isEmpty then lm
          else matchedLoop pats (polls a)), DiscReason.stagnant⟩
      else discLoop polls pats expected fuel (a + 1) (some (polls a).length)
        (if lt = some (polls a).length then stag + 1 else 0)
        (if (matchedLoop pats (polls a)).isEmpty then lm
          else matchedLoop pats (polls a))) := rfl

/-- The stagnation counter carried by the loop is the closed-form run
length of unchanged totals. -/
theorem stag2_runLen (polls : Nat → List (String × String)) (a : Nat) (ha : 1 ≤ a) :
    (if ltOf polls a = some (polls a).length then runLen (countsOf polls) (a - 1) + 1
      else 0) = runLen (countsOf polls) a := by
  rcases a with _ | t
  · omega
  · rcases t with _ | t
    · rw [if_neg (by simp [ltOf])]
      rfl
    · show (if some (countsOf polls (t + 1)) = some (countsOf polls (t + 2)) then
        runLen (countsOf polls) (t + 1) + 1 else 0) = runLen (countsOf polls) (t + 2)
      rw [runLen]
      by_cases he : countsOf polls (t + 2) = countsOf polls (t + 1)
      · rw [if_pos (by rw [he]), if_pos he]
      · rw [if_neg (fun hh => he (Option.some.inj hh).symm), if_neg he]

/-- The retained match set carried by the loop is the closed-form most
recent non-empty matched set. -/
theorem lastNonempty_step (polls : Nat → List (String × String)) (pats : List String)
    (a : Nat) (ha : 1 ≤ a) :
    (if (matchedLoop pats (polls a)).isEmpty then lastNonemptyM polls pats (a - 1)
      else matchedLoop pats (polls a)) = lastNonemptyM polls pats a := by
  rcases a with _ | t
  · omega
  · rfl

/-- The previous-total state entering the next attempt. -/
theorem ltOf_succ (polls : Nat → List (String × String)) (a : Nat) (ha : 1 ≤ a) :
    ltOf polls (a + 1) = some ((polls a).length) := by
  rcases a with _ | t
  · omega
  · rfl

/-- The stagnation counter reaches the limit exactly at a stagnation poll:
the total was unchanged over the last three transitions. -/
theorem three_le_runLen_iff (c : Nat → Nat) (t : Nat) :
    3 ≤ runLen c t ↔ stagCondAt c t := by
  rcases t with _ | _ | _ | _ | k
  · simp [runLen, stagCondAt]
  · simp [runLen, stagCondAt]
  · rw [runLen]
    constructor
    · intro h
      split_ifs at h
      · simp [runLen] at h
      · omega
    · rintro ⟨h4, _⟩
      omega
  · rw [runLen]
    constructor
    · intro h
      split_ifs at h
      · rw [runLen] at h
        split_ifs at h
        · simp [runLen] at h
        · omega
      · omega
    · rintro ⟨h4, _⟩
      omega
  · constructor
    · intro h
      rw [runLen] at h
      by_cases e1 : c (k + 4) = c (k + 3)
      · rw [if_pos e1, runLen] at h
        by_cases e2 : c (k + 3) = c (k + 2)
        · rw [if_pos e2, runLen] at h
          by_cases e3 : c (k + 2) = c (k + 1)
          · exact ⟨by omega, e1, e2, e3⟩
          · rw [if_neg e3] at h
            omega
        · rw [if_neg e2] at h
          omega
      · rw [if_neg e1] at h
        omega
    · rintro ⟨_, e1, e2, e3⟩
      have e1' : c (k + 4) = c (k + 3) := e1
      have e2' : c (k + 3) = c (k + 2) := e2
      have e3' : c (k + 2) = c (k + 1) := e3
      rw [runLen, if_pos e1', runLen, if_pos e2', runLen, if_pos e3']
      omega

/-- The discovery loop entered at attempt a with the invariant state, a at
most the stagnation poll s, exits at exactly attempt s with the stagnation
reason and the retained most recent non-empty matched set. -/
theorem discLoop_stagnation (polls : Nat → List (String × String)) (pats : List String)
    (expected s : Nat)
    (hs4 : 4 ≤ s) (hs30 : s ≤ 30)
    (hstag : stagCondAt (countsOf polls) s)
    (hmin : ∀ t, t < s → ¬ stagCondAt (countsOf polls) t)
    (hnever : ∀ t, t < s + 1 → 1 ≤ t → (matchedLoop pats (polls t)).length < expected) :
    ∀ d a, 1 ≤ a → a + d = s →
      discLoop polls pats expected (31 - a) a (ltOf polls a)
        (runLen (countsOf polls) (a - 1)) (lastNonemptyM polls pats (a - 1))
      = ⟨s, optOfList (lastNonemptyM polls pats s), DiscReason.stagnant⟩ := by
  intro d
  induction d with
  | zero =>
    intro a ha1 has
    have haa : a = s := by omega
    subst haa
    obtain ⟨f, hf⟩ : ∃ f, 31 - a = f + 1 := ⟨30 - a, by omega⟩
    rw [hf, discLoop_step, stag2_runLen polls a ha1, lastNonempty_step polls pats a ha1]
    rw [if_neg (Nat.not_le.mpr (hnever a (by omega) ha1))]
    rw [if_pos ((three_le_runLen_iff (countsOf polls) a).mpr hstag)]
  | succ d ih =>
    intro a ha1 has
    obtain ⟨f, hf⟩ : ∃ f, 31 - a = f + 1 := ⟨30 - a, by omega⟩
    rw [hf, discLoop_step, stag2_runLen polls a ha1, lastNonempty_step polls pats a ha1]
    rw [if_neg (Nat.not_le.mpr (hnever a (by omega) ha1))]
    rw [if_neg (fun hh =>
      hmin a (by omega) ((three_le_runLen_iff (countsOf polls) a).mp hh))]
    rw [← ltOf_succ polls a ha1]
    rw [show f = 31 - (a + 1) by omega]
    exact ih (a + 1) (by omega) (by omega)

/-- The most recent non-empty matched set is non-empty as soon as any poll
up to the horizon matched at least one window. -/
theorem lastNonemptyM_ne (polls : Nat → List (String × String)) (pats : List String) :
    ∀ s, (∃ t, 1 ≤ t ∧ t ≤ s ∧ matchedLoop pats (polls t) ≠ []) →
      lastNonemptyM polls pats s ≠ [] := by
  intro s
  induction s with
  | zero =>
    rintro ⟨t, h1, h2, _⟩
    omega
  | succ s ih =>
    rintro ⟨t, h1, h2, h3⟩
    show (if (matchedLoop pats (polls (s + 1))).isEmpty then lastNonemptyM polls pats s
      else matchedLoop pats (polls (s + 1))) ≠ []
    rcases hE : (matchedLoop pats (polls (s + 1))).isEmpty with _ | _
    · rw [if_neg (by simp [hE])]
      exact List.isEmpty_eq_false.mp hE
    · rw [if_pos rfl]
      apply ih
      by_cases ht : t = s + 1
      · rw [ht] at h3
        exact absurd (List.isEmpty_iff.mp hE) h3
      · exact ⟨t, h1, by omega, h3⟩

/-! ### Claim C5 — discovery stagnation termination -/

/-- Claim C5: when the total visible-window count is unchanged across the
stagnation limit of three consecutive polls, the first such poll being s
within the 30-poll budget, and no poll up to s matches expected_count many
windows, the discovery loop terminates at exactly poll s with the
stagnation reason, passing to the gridder the match set it retained — the
most recent non-empty matched set — which is non-empty (and gridded)
whenever any poll up to s matched at least one window. -/
theorem c5_theorem (polls : Nat → List (String × String)) (pats : List String)
    (expected s : Nat)
    (hs4 : 4 ≤ s) (hs30 : s ≤ 30)
    (hstag : stagCondAt (countsOf polls) s)
    (hmin : ∀ t, t < s → ¬ stagCondAt (countsOf polls) t)
    (hnever : ∀ t, t < s + 1 → 1 ≤ t → (matchedLoop pats (polls t)).length < expected) :
    grid_windows polls pats expected
      = ⟨s, optOfList (lastNonemptyM polls pats s), DiscReason.stagnant⟩ ∧
    ((∃ t, 1 ≤ t ∧ t ≤ s ∧ matchedLoop pats (polls t) ≠ []) →
      ∃ lst, (grid_windows polls pats expected).gridded = some lst ∧ lst ≠ []) := by
  have hmain := discLoop_stagnation polls pats expected s hs4 hs30 hstag hmin hnever
    (s - 1) 1 (by omega) (by omega)
  have hgw : grid_windows polls pats expected
      = ⟨s, optOfList (lastNonemptyM polls pats s), DiscReason.stagnant⟩ := hmain
  refine ⟨hgw, ?_⟩
  intro hex
  have hne := lastNonemptyM_ne polls pats s hex
  refine ⟨lastNonemptyM polls pats s, ?_, hne⟩
  rw [hgw]
  show optOfList (lastNonemptyM polls pats s) = some _
  unfold optOfList
  rw [if_neg hne]

/-- Witness for c5_theorem: the trace pollsW keeps a constant total of two
visible windows, so poll 4 is the first stagnation poll; the expectation of
five is never met, and the loop exits at poll 4 gridding the one retained
match. -/
theorem c5_witness :
    (4 : Nat) ≤ 4 ∧ (4 : Nat) ≤ 30 ∧ stagCondAt (countsOf pollsW) 4 ∧
    (∀ t, t < 4 → ¬ stagCondAt (countsOf pollsW) t) ∧
    (∀ t, t < 5 → 1 ≤ t → (matchedLoop [("chat")] (pollsW t)).length < 5) ∧
    (grid_windows pollsW [("chat")] 5
        = ⟨4, optOfList (lastNonemptyM pollsW [("chat")] 4), DiscReason.stagnant⟩ ∧
      ((∃ t, 1 ≤ t ∧ t ≤ 4 ∧ matchedLoop [("chat")] (pollsW t) ≠ []) →
        ∃ lst, (grid_windows pollsW [("chat")] 5).gridded = some lst ∧ lst ≠ [])) :=
  ⟨by decide, by decide, by decide, by decide, by decide,
    c5_theorem pollsW [("chat")] 5 4 (by decide) (by decide) (by decide) (by decide)
      (by decide)⟩
